import Mathlib

/-!
Verification development for the AWX task-system core:
the streaming event-callback pipeline with adaptive websocket rate
limiting (`awx/main/tasks/callback.py`) and the cluster
membership/heartbeat machinery (`awx/main/tasks/system.py`).

Timestamps (Python `time.time()` floats) are modelled as rationals; the
Python `deque(maxlen=N)` of recent emission timestamps is modelled as a
list of at most `N` rationals, oldest first.
-/

/-- Modelled from the spec: the always-emit event-type set
`MINIMAL_EVENTS` is imported from `awx.main.constants`, which is not part
of the sources; the spec describes it as the set of end-of-playbook
summary markers such as `playbook_on_stats`.  None of the theorems below
depend on its exact contents. -/
def MINIMAL_EVENTS : List String := ["playbook_on_stats"]

/-- The fields of an Ansible Runner event record that
`RunnerCallback.event_handler` consults for its websocket-throttling
decision: the event type, the `stdout` payload (absent keys in the Python
dict are `none`), and the start/end line markers. -/
structure Event where
  event : String
  stdout : Option String
  start_line : Int
  end_line : Int
deriving DecidableEq, Repr

/-- The throttling-relevant state of a `RunnerCallback`:
`recent_event_timings` (a `deque(maxlen = settings.MAX_WEBSOCKET_EVENT_RATE)`
of recent emission timestamps, oldest first), its fixed capacity, and the
`event_ct` counter. -/
structure ThrottleState where
  timings : List ℚ
  maxlen : ℕ
  event_ct : ℕ
deriving DecidableEq, Repr

/-- Python `deque(maxlen=m).append(t)`: appending to a full deque evicts
the oldest element; a deque with `maxlen=0` stays empty. -/
def dequeAppend (m : ℕ) (ts : List ℚ) (t : ℚ) : List ℚ :=
  if m = 0 then ts
  else if ts.length = m then ts.tail ++ [t]
  else ts ++ [t]

/-- The emission decision of `event_handler` (callback.py lines 199-213),
evaluated only when `recent_event_timings` is non-empty: always-emit
types pass, zero-output events (`stdout == ''` and equal line markers)
are dropped, otherwise emit when the oldest buffered timestamp is over
1 second old, or `maxlen * (now - newest) > 1.0`, or the deque is not
yet full. -/
def shouldEmit (m : ℕ) (timings : List ℚ) (now : ℚ) (ev : Event) : Bool :=
  if MINIMAL_EVENTS.contains ev.event then true
  else if ev.stdout = some "" && ev.start_line == ev.end_line then false
  else
    decide (1 < now - timings.headD 0) ||
    decide (1 < (m : ℚ) * (now - timings.getLastD 0)) ||
    decide (timings.length ≠ m)

/-- What a single `event_handler` call reports back about the event:
whether it was forwarded to the durable dispatch queue, and whether it was
flagged `skip_websocket_message` (suppressed from the live channel). -/
structure EventOutcome where
  dispatched : Bool
  skipFlagged : Bool
deriving DecidableEq, Repr

/-- `RunnerCallback.event_handler` (callback.py lines 129-237), restricted
to its control flow on the throttling state: keep-alive events return
immediately; otherwise, with a non-empty timing window the `shouldEmit`
decision either records `now` in the window or flags the event, with an
empty window the timestamp is recorded unconditionally (when the deque
has a non-zero capacity); in all non-keep-alive cases the event is
dispatched and `event_ct` is incremented. -/
def event_handler (st : ThrottleState) (ev : Event) (now : ℚ) :
    ThrottleState × EventOutcome :=
  if ev.event = "keepalive" then (st, ⟨false, false⟩)
  else if st.timings = [] then
    ({ st with
        timings := if st.maxlen ≠ 0 then [now] else st.timings,
        event_ct := st.event_ct + 1 }, ⟨true, false⟩)
  else if shouldEmit st.maxlen st.timings now ev then
    ({ st with
        timings := dequeAppend st.maxlen st.timings now,
        event_ct := st.event_ct + 1 }, ⟨true, false⟩)
  else
    ({ st with event_ct := st.event_ct + 1 }, ⟨true, true⟩)

/-- Run `event_handler` over a timed event sequence starting from timing
window `ts`, recording one entry per event that was dispatched without the
`skip_websocket_message` flag (exactly the events whose timestamp was
appended to the window, for a non-zero capacity): its timestamp and
whether it counts as a live non-always-emit emission. -/
def runTrace (N : ℕ) (ts : List ℚ) : List (Event × ℚ) → List (ℚ × Bool)
  | [] => []
  | (ev, t) :: rest =>
    let r := event_handler ⟨ts, N, 0⟩ ev t
    if r.2.dispatched && !r.2.skipFlagged then
      (t, !MINIMAL_EVENTS.contains ev.event) :: runTrace N r.1.timings rest
    else
      runTrace N r.1.timings rest

/-- Timestamps of the events a run delivers to the live websocket channel,
not counting always-emit types: dispatched, not flagged
`skip_websocket_message`, and not in `MINIMAL_EVENTS`. -/
def liveTimes (N : ℕ) (evs : List (Event × ℚ)) : List ℚ :=
  ((runTrace N [] evs).filter (fun p => p.2)).map Prod.fst

/-- Number of elements of `l` lying in the closed 1-second window
starting at `s`. -/
def windowCount (s : ℚ) (l : List ℚ) : ℕ :=
  l.countP (fun t => decide (s ≤ t) && decide (t ≤ s + 1))

/-- Modelled from the spec (section 4.1): the per-event emission rule as
the specification states it — always-emit types pass; events with no
output payload and equal line markers are suppressed; otherwise emit if
the oldest buffered timestamp is more than 1 second old, or
`N × (now − newest) > 1.0`, or the buffer is not yet full.  Compared
against `event_handler` below. -/
def emitDecisionSpec (N : ℕ) (timings : List ℚ) (now : ℚ) (ev : Event) : Bool :=
  if MINIMAL_EVENTS.contains ev.event then true
  else if ev.stdout = some "" && ev.start_line == ev.end_line then false
  else
    decide (1 < now - timings.headD 0) ||
    decide (1 < (N : ℚ) * (now - timings.getLastD 0)) ||
    decide (timings.length ≠ N)

/-- A non-keep-alive event used in several concrete runs below: ordinary
type, non-empty output, distinct line markers. -/
def evOut : Event := ⟨"runner_on_ok", some "line", 0, 1⟩

/-- C10: the first non-keep-alive event processed while the
recent-emission window is empty is delivered to the live channel — it is
never flagged `skip_websocket_message`, regardless of its type or payload
— and its timestamp is recorded in the window, so throttling only starts
with the second event. -/
theorem event_handler_first_event_always_emitted
    (st : ThrottleState) (ev : Event) (now : ℚ)
    (hempty : st.timings = []) (hk : ev.event ≠ "keepalive")
    (hcap : 0 < st.maxlen) :
    event_handler st ev now =
      ({ st with timings := [now], event_ct := st.event_ct + 1 },
        ⟨true, false⟩) := by
  simp [event_handler, hempty, hk, Nat.pos_iff_ne_zero.mp hcap]

/-- Witness for C10 at a concrete input: an event with empty stdout and
equal start/end line markers (the payload that is otherwise always
suppressed) is still emitted as the first event. -/
theorem event_handler_first_event_always_emitted_witness :
    event_handler ⟨[], 30, 0⟩ ⟨"runner_on_ok", some "", 5, 5⟩ 2 =
      (⟨[2], 30, 1⟩, ⟨true, false⟩) :=
  event_handler_first_event_always_emitted ⟨[], 30, 0⟩
    ⟨"runner_on_ok", some "", 5, 5⟩ 2 rfl (by decide) (by decide)

/-- C2 (amended): with a NON-EMPTY timestamp window, `event_handler`
follows the spec's decision rule `emitDecisionSpec` exactly — always-emit
types pass, zero-output events are suppressed, otherwise the three-way
disjunction decides — and every non-keep-alive event, suppressed or not,
is dispatched to the durable queue and counted in `event_ct`; a
suppressed event leaves the timing window unchanged. -/
theorem event_handler_nonempty_window_decision
    (st : ThrottleState) (ev : Event) (now : ℚ)
    (hne : st.timings ≠ []) (hk : ev.event ≠ "keepalive") :
    (event_handler st ev now).2.dispatched = true ∧
    (event_handler st ev now).1.event_ct = st.event_ct + 1 ∧
    (event_handler st ev now).2.skipFlagged
      = !emitDecisionSpec st.maxlen st.timings now ev ∧
    ((event_handler st ev now).2.skipFlagged = true →
      (event_handler st ev now).1.timings = st.timings) := by
  have hspec : emitDecisionSpec st.maxlen st.timings now ev
      = shouldEmit st.maxlen st.timings now ev := rfl
  by_cases hemit : shouldEmit st.maxlen st.timings now ev
  · simp [event_handler, hne, hk, hemit, hspec]
  · simp [event_handler, hne, hk, hemit, hspec,
      Bool.not_eq_true _ ▸ Bool.eq_false_iff.mpr hemit]

/-- Witness for C2's amended theorem at a concrete input: a suppressed
zero-output event against a non-empty window. -/
theorem event_handler_nonempty_window_decision_witness :
    (event_handler ⟨[0], 30, 0⟩ ⟨"runner_on_ok", some "", 5, 5⟩ 2).2.dispatched = true ∧
    (event_handler ⟨[0], 30, 0⟩ ⟨"runner_on_ok", some "", 5, 5⟩ 2).1.event_ct = 0 + 1 ∧
    (event_handler ⟨[0], 30, 0⟩ ⟨"runner_on_ok", some "", 5, 5⟩ 2).2.skipFlagged
      = !emitDecisionSpec 30 [0] 2 ⟨"runner_on_ok", some "", 5, 5⟩ ∧
    ((event_handler ⟨[0], 30, 0⟩ ⟨"runner_on_ok", some "", 5, 5⟩ 2).2.skipFlagged = true →
      (event_handler ⟨[0], 30, 0⟩ ⟨"runner_on_ok", some "", 5, 5⟩ 2).1.timings = [0]) :=
  event_handler_nonempty_window_decision ⟨[0], 30, 0⟩
    ⟨"runner_on_ok", some "", 5, 5⟩ 2 (by simp) (by decide)

/-- Counterexample to C2 as stated: the claim says an event with empty
stdout and equal start/end lines is ALWAYS suppressed, but when the
timestamp window is empty (the first event of a run) the code takes the
empty-window branch and emits it without the skip flag. -/
theorem event_handler_empty_window_emits_blank_event :
    (event_handler ⟨[], 30, 0⟩ ⟨"runner_on_ok", some "", 5, 5⟩ 0).2.skipFlagged
      = false := by
  simp [event_handler]

def lastN (N : ℕ) (xs : List ℚ) : List ℚ := xs.drop (xs.length - N)

theorem lastN_nil (N : ℕ) : lastN N [] = [] := by simp [lastN]

theorem lastN_eq_nil_iff (N : ℕ) (hN : 0 < N) (xs : List ℚ) :
    lastN N xs = [] ↔ xs = [] := by
  unfold lastN
  rcases xs with _ | ⟨a, t⟩
  · simp
  · simp [List.drop_eq_nil_iff]
    omega

theorem lastN_length (N : ℕ) (xs : List ℚ) :
    (lastN N xs).length = min N xs.length := by
  simp [lastN]; omega

theorem lastN_full (N : ℕ) (xs : List ℚ) (h : xs.length < N) : lastN N xs = xs := by
  unfold lastN
  have : xs.length - N = 0 := by omega
  simp [this]

theorem dequeAppend_lastN (N : ℕ) (hN : 0 < N) (xs : List ℚ) (t : ℚ) :
    dequeAppend N (lastN N xs) t = lastN N (xs ++ [t]) := by
  by_cases h : xs.length < N
  · rw [lastN_full N xs h]
    unfold dequeAppend lastN
    have h1 : ¬ (xs.length = N) := by omega
    have h2 : xs.length + 1 - N = 0 := by omega
    simp [Nat.pos_iff_ne_zero.mp hN, h1, h2]
  · push_neg at h
    unfold dequeAppend
    have hlen : (lastN N xs).length = N := by rw [lastN_length]; omega
    rw [if_neg (Nat.pos_iff_ne_zero.mp hN), if_pos hlen]
    unfold lastN
    rw [List.tail_drop]
    rw [List.length_append, List.length_singleton, List.drop_append_eq_append_drop]
    have h3 : xs.length + 1 - N - xs.length = 0 := by omega
    have h4 : xs.length - N + 1 = xs.length + 1 - N := by omega
    simp [h3, h4]

theorem headD_drop_eq_getD (xs : List ℚ) (n : ℕ) :
    (xs.drop n).headD 0 = xs.getD n 0 := by
  induction xs generalizing n with
  | nil => simp [List.getD]
  | cons a t ih =>
    cases n with
    | zero => simp [List.getD]
    | succ m => simpa [List.getD] using ih m

theorem getD_drop_eq_getD_add (xs : List ℚ) (n i : ℕ) :
    (xs.drop n).getD i 0 = xs.getD (n + i) 0 := by
  induction xs generalizing n i with
  | nil => simp [List.getD]
  | cons a t ih =>
    cases n with
    | zero => simp [List.getD]
    | succ m => simpa [List.getD, Nat.succ_add] using ih m i

theorem getLastD_eq_getD (xs : List ℚ) :
    xs.getLastD 0 = xs.getD (xs.length - 1) 0 := by
  induction xs with
  | nil => simp [List.getD]
  | cons a t ih =>
    cases t with
    | nil => simp [List.getD]
    | cons b u =>
      rw [List.getLastD_eq_getLast?, List.getLast?_cons_cons, ← List.getLastD_eq_getLast?, ih]
      simp [List.getD]

def qAt (Q : List (ℚ × Bool)) (i : ℕ) : ℚ := (Q.getD i (0, false)).1

def liveAt (Q : List (ℚ × Bool)) (i : ℕ) : Bool := (Q.getD i (0, false)).2

/-- The property `runTrace` guarantees of its output: any live non-minimal
emission with at least `N` earlier window entries passed the throttle
because the `N`-back entry was over 1 second old or the gap to the
previous entry exceeded `1/N`. -/
def goodTrace (N : ℕ) (Q : List (ℚ × Bool)) : Prop :=
  ∀ j, j < Q.length → liveAt Q j = true → N ≤ j →
    1 < qAt Q j - qAt Q (j - N) ∨ 1 < (N : ℚ) * (qAt Q j - qAt Q (j - 1))

theorem getDPair_append_lt (P X : List (ℚ × Bool)) (j : ℕ) (h : j < P.length) :
    (P ++ X).getD j (0, false) = P.getD j (0, false) := by
  induction P generalizing j with
  | nil => simp at h
  | cons a t ih =>
    cases j with
    | zero => simp [List.getD]
    | succ m => simpa [List.getD] using ih m (by simpa using h)

theorem getDPair_append_exact (P X : List (ℚ × Bool)) (x : ℚ × Bool) :
    (P ++ x :: X).getD P.length (0, false) = x := by
  induction P with
  | nil => simp [List.getD]
  | cons a t ih => simpa [List.getD] using ih

theorem getD_map_fst (Q : List (ℚ × Bool)) (i : ℕ) :
    (Q.map Prod.fst).getD i 0 = qAt Q i := by
  induction Q generalizing i with
  | nil => simp [List.getD, qAt]
  | cons a t ih =>
    cases i with
    | zero => simp [List.getD, qAt]
    | succ m => simpa [List.getD, qAt] using ih m

theorem chainLe_append_middle (xs ys : List ℚ) (y : ℚ)
    (h : List.Chain' (· ≤ ·) (xs ++ y :: ys)) :
    List.Chain' (· ≤ ·) (xs ++ ys) := by
  refine h.sublist ?_
  exact (List.sublist_cons_self y ys).append_left xs

theorem getDQ_eq_get (l : List ℚ) (i : ℕ) (h : i < l.length) :
    l.getD i 0 = l.get ⟨i, h⟩ := by
  induction l generalizing i with
  | nil => simp at h
  | cons a t ih =>
    cases i with
    | zero => simp [List.getD]
    | succ m => simpa [List.getD] using ih m (by simpa using h)

theorem chainLe_getD_mono (l : List ℚ) (h : List.Chain' (· ≤ ·) l)
    (i j : ℕ) (hij : i ≤ j) (hj : j < l.length) :
    l.getD i 0 ≤ l.getD j 0 := by
  rcases Nat.lt_or_ge i j with hlt | hge
  · have hi : i < l.length := lt_trans hlt hj
    rw [getDQ_eq_get l i hi, getDQ_eq_get l j hj]
    have hp : l.Pairwise (· ≤ ·) := List.chain'_iff_pairwise.mp h
    exact List.pairwise_iff_get.mp hp ⟨i, hi⟩ ⟨j, hj⟩ hlt
  · have : i = j := le_antisymm hij hge
    subst this
    exact le_refl _

theorem lastN_singleton (N : ℕ) (hN : 0 < N) (t : ℚ) : lastN N [t] = [t] := by
  unfold lastN
  have h1 : (1 : ℕ) - N = 0 := by omega
  simp [h1]

theorem runTrace_invariant (N : ℕ) (hN : 0 < N) (evs : List (Event × ℚ)) :
    ∀ (P : List (ℚ × Bool)),
      List.Chain' (· ≤ ·) (P.map Prod.fst ++ evs.map Prod.snd) →
      goodTrace N P →
      goodTrace N (P ++ runTrace N (lastN N (P.map Prod.fst)) evs) ∧
      List.Chain' (· ≤ ·)
        ((P ++ runTrace N (lastN N (P.map Prod.fst)) evs).map Prod.fst) := by
  induction evs with
  | nil =>
    intro P hchain hgood
    simp only [runTrace, List.append_nil]
    exact ⟨hgood, by simpa using hchain⟩
  | cons e rest ih =>
    obtain ⟨ev, t⟩ := e
    intro P hchain hgood
    have hchain2 : List.Chain' (· ≤ ·)
        (P.map Prod.fst ++ (t :: rest.map Prod.snd)) := by simpa using hchain
    by_cases hk : ev.event = "keepalive"
    · have hstep : runTrace N (lastN N (P.map Prod.fst)) ((ev, t) :: rest)
          = runTrace N (lastN N (P.map Prod.fst)) rest := by
        simp [runTrace, event_handler, hk]
      rw [hstep]
      exact ih P (chainLe_append_middle _ _ _ hchain2) hgood
    · by_cases hts : lastN N (P.map Prod.fst) = []
      · have hPnil : P = [] := by
          have := (lastN_eq_nil_iff N hN (P.map Prod.fst)).mp hts
          simpa using this
        subst hPnil
        have hts0 : lastN N (List.map Prod.fst ([] : List (ℚ × Bool))) = [] := by
          simp [lastN]
        rw [hts0]
        have hstep : runTrace N [] ((ev, t) :: rest)
            = (t, !MINIMAL_EVENTS.contains ev.event) :: runTrace N [t] rest := by
          simp [runTrace, event_handler, hk, Nat.pos_iff_ne_zero.mp hN]
        rw [hstep]
        have hP1 : lastN N (List.map Prod.fst
            [(t, !MINIMAL_EVENTS.contains ev.event)]) = [t] := by
          simpa using lastN_singleton N hN t
        have hgood1 : goodTrace N [(t, !MINIMAL_EVENTS.contains ev.event)] := by
          intro j hj _ hNj
          simp at hj
          omega
        have hchain1 : List.Chain' (· ≤ ·)
            (List.map Prod.fst [(t, !MINIMAL_EVENTS.contains ev.event)]
              ++ rest.map Prod.snd) := by simpa using hchain2
        have := ih [(t, !MINIMAL_EVENTS.contains ev.event)] hchain1 hgood1
        rw [hP1] at this
        simpa using this
      · by_cases hemit : shouldEmit N (lastN N (P.map Prod.fst)) t ev = true
        · have hstep : runTrace N (lastN N (P.map Prod.fst)) ((ev, t) :: rest)
              = (t, !MINIMAL_EVENTS.contains ev.event)
                :: runTrace N (dequeAppend N (lastN N (P.map Prod.fst)) t) rest := by
            simp [runTrace, event_handler, hk, hts, hemit]
          rw [hstep, dequeAppend_lastN N hN (P.map Prod.fst) t]
          have hmapP : P.map Prod.fst ++ [t]
              = (P ++ [(t, !MINIMAL_EVENTS.contains ev.event)]).map Prod.fst := by
            simp
          rw [hmapP]
          have hchain3 : List.Chain' (· ≤ ·)
              ((P ++ [(t, !MINIMAL_EVENTS.contains ev.event)]).map Prod.fst
                ++ rest.map Prod.snd) := by
            simpa [List.append_assoc] using hchain2
          have hgood3 : goodTrace N (P ++ [(t, !MINIMAL_EVENTS.contains ev.event)]) := by
            intro j hj hlive hNj
            rcases Nat.lt_or_ge j P.length with hjlt | hjge
            · have e1 : qAt (P ++ [(t, !MINIMAL_EVENTS.contains ev.event)]) j = qAt P j := by
                unfold qAt; rw [getDPair_append_lt _ _ _ hjlt]
              have e2 : qAt (P ++ [(t, !MINIMAL_EVENTS.contains ev.event)]) (j - N)
                  = qAt P (j - N) := by
                unfold qAt; rw [getDPair_append_lt _ _ _ (by omega)]
              have e3 : qAt (P ++ [(t, !MINIMAL_EVENTS.contains ev.event)]) (j - 1)
                  = qAt P (j - 1) := by
                unfold qAt; rw [getDPair_append_lt _ _ _ (by omega)]
              have e4 : liveAt (P ++ [(t, !MINIMAL_EVENTS.contains ev.event)]) j
                  = liveAt P j := by
                unfold liveAt; rw [getDPair_append_lt _ _ _ hjlt]
              rw [e1, e2, e3]
              exact hgood j hjlt (by rw [e4] at hlive; exact hlive) hNj
            · have hjeq : j = P.length := by
                simp [List.length_append] at hj
                omega
              subst hjeq
              have hNP : N ≤ P.length := hNj
              have hP1 : 1 ≤ P.length := le_trans hN hNP
              have elast : qAt (P ++ [(t, !MINIMAL_EVENTS.contains ev.event)]) P.length
                  = t := by
                unfold qAt
                rw [getDPair_append_exact]
              have hlenmap : (P.map Prod.fst).length = P.length := by simp
              have eN : qAt (P ++ [(t, !MINIMAL_EVENTS.contains ev.event)]) (P.length - N)
                  = (P.map Prod.fst).getD (P.length - N) 0 := by
                unfold qAt
                rw [getDPair_append_lt _ _ _ (by omega)]
                exact (getD_map_fst P _).symm
              have e1 : qAt (P ++ [(t, !MINIMAL_EVENTS.contains ev.event)]) (P.length - 1)
                  = (P.map Prod.fst).getD (P.length - 1) 0 := by
                unfold qAt
                rw [getDPair_append_lt _ _ _ (by omega)]
                exact (getD_map_fst P _).symm
              have hlive2 : MINIMAL_EVENTS.contains ev.event = false := by
                have := hlive
                unfold liveAt at this
                rw [getDPair_append_exact] at this
                simpa using this
              have hlen : (lastN N (P.map Prod.fst)).length = N := by
                rw [lastN_length, hlenmap]
                omega
              have hhead : (lastN N (P.map Prod.fst)).headD 0
                  = (P.map Prod.fst).getD (P.length - N) 0 := by
                unfold lastN
                rw [headD_drop_eq_getD, hlenmap]
              have htail : (lastN N (P.map Prod.fst)).getLastD 0
                  = (P.map Prod.fst).getD (P.length - 1) 0 := by
                rw [getLastD_eq_getD, hlen]
                unfold lastN
                rw [getD_drop_eq_getD_add, hlenmap]
                congr 1
                omega
              rw [shouldEmit, hlive2] at hemit
              simp only [Bool.false_eq_true, if_false] at hemit
              by_cases hblank : (ev.stdout = some "" && ev.start_line == ev.end_line) = true
              · rw [if_pos hblank] at hemit
                exact absurd hemit (by simp)
              · rw [if_neg hblank] at hemit
                rw [hlen] at hemit
                simp only [ne_eq, not_true_eq_false, Bool.or_eq_true,
                  decide_eq_true_eq] at hemit
                rw [elast, eN, e1]
                rw [hhead, htail] at hemit
                tauto
          have := ih (P ++ [(t, !MINIMAL_EVENTS.contains ev.event)]) hchain3 hgood3
          rw [List.append_cons]
          exact this
        · have hstep : runTrace N (lastN N (P.map Prod.fst)) ((ev, t) :: rest)
              = runTrace N (lastN N (P.map Prod.fst)) rest := by
            simp [runTrace, event_handler, hk, hts, hemit]
          rw [hstep]
          exact ih P (chainLe_append_middle _ _ _ hchain2) hgood

theorem teleGap (c : ℚ) (f : ℕ → ℚ) :
    ∀ (m a : ℕ),
      (∀ i, a < i → i ≤ a + (m + 1) → 1 < c * (f i - f (i - 1))) →
      ((m : ℚ) + 1) < c * (f (a + (m + 1)) - f a) := by
  intro m
  induction m with
  | zero =>
    intro a h
    have := h (a + 1) (by omega) (by omega)
    simpa using this
  | succ k ih =>
    intro a h
    have h1 : ((k : ℚ) + 1) < c * (f (a + (k + 1)) - f a) :=
      ih a (fun i hi1 hi2 => h i hi1 (by omega))
    have h2 : 1 < c * (f (a + (k + 2)) - f (a + (k + 2) - 1)) :=
      h (a + (k + 2)) (by omega) (by omega)
    have h3 : a + (k + 2) - 1 = a + (k + 1) := by omega
    rw [h3] at h2
    have h4 : c * (f (a + (k + 2)) - f a)
        = c * (f (a + (k + 2)) - f (a + (k + 1))) + c * (f (a + (k + 1)) - f a) := by
      ring
    have h5 : a + (k + 1 + 1) = a + (k + 2) := by omega
    rw [h5, h4]
    push_cast
    push_cast at h1
    linarith

theorem getDN_eq_get (l : List ℕ) (i : ℕ) (h : i < l.length) :
    l.getD i 0 = l.get ⟨i, h⟩ := by
  induction l generalizing i with
  | nil => simp at h
  | cons a t ih =>
    cases i with
    | zero => simp [List.getD]
    | succ m => simpa [List.getD] using ih m (by simpa using h)

theorem sorted_getD_strict (T : List ℕ) (hp : T.Pairwise (· < ·))
    (i j : ℕ) (hij : i < j) (hj : j < T.length) :
    T.getD i 0 < T.getD j 0 := by
  have hi : i < T.length := lt_trans hij hj
  rw [getDN_eq_get T i hi, getDN_eq_get T j hj]
  exact List.pairwise_iff_get.mp hp ⟨i, hi⟩ ⟨j, hj⟩ hij

theorem sorted_getD_growth (T : List ℕ) (hp : T.Pairwise (· < ·)) :
    ∀ i, i < T.length → T.getD 0 0 + i ≤ T.getD i 0 := by
  intro i
  induction i with
  | zero => intro _; omega
  | succ k ih =>
    intro hk
    have h1 := ih (by omega)
    have h2 := sorted_getD_strict T hp k (k + 1) (by omega) hk
    omega

theorem throttle_window_bound (N : ℕ) (hN : 0 < N) (len : ℕ)
    (q : ℕ → ℚ) (live : ℕ → Bool)
    (hmono : ∀ i j, i ≤ j → j < len → q i ≤ q j)
    (hgood : ∀ j, j < len → live j = true → N ≤ j →
      1 < q j - q (j - N) ∨ 1 < (N : ℚ) * (q j - q (j - 1)))
    (s : ℚ) :
    (List.range len).countP
      (fun j => live j && (decide (s ≤ q j) && decide (q j ≤ s + 1)))
      ≤ 2 * N - 1 := by
  by_contra hcon
  push_neg at hcon
  rw [List.countP_eq_length_filter] at hcon
  set T := (List.range len).filter
    (fun j => live j && (decide (s ≤ q j) && decide (q j ≤ s + 1))) with hT
  have h2N : 2 * N ≤ T.length := by omega
  have hmemT : ∀ x ∈ T, (live x = true ∧ s ≤ q x ∧ q x ≤ s + 1) ∧ x < len := by
    intro x hx
    have h1 := List.mem_filter.mp hx
    have h2 := List.mem_range.mp h1.1
    have h3 := h1.2
    simp only [Bool.and_eq_true, decide_eq_true_eq] at h3
    exact ⟨⟨h3.1, h3.2.1, h3.2.2⟩, h2⟩
  have hTpair : T.Pairwise (· < ·) := (List.pairwise_lt_range len).filter _
  have hTget : ∀ i, i < T.length →
      (live (T.getD i 0) = true ∧ s ≤ q (T.getD i 0) ∧ q (T.getD i 0) ≤ s + 1)
        ∧ T.getD i 0 < len := by
    intro i hi
    apply hmemT
    rw [getDN_eq_get T i hi]
    exact T.get_mem i hi
  have hgrow := sorted_getD_growth T hTpair
  have hgap : ∀ i, N ≤ i → i < T.length →
      1 < (N : ℚ) * (q (T.getD i 0) - q (T.getD (i - 1) 0)) := by
    intro i hNi hiT
    obtain ⟨⟨hjlive, hjs, hjs1⟩, hjlen⟩ := hTget i hiT
    have hg1 := hgrow i hiT
    have hjN : N ≤ T.getD i 0 := by omega
    rcases hgood (T.getD i 0) hjlen hjlive hjN with hcase1 | hcase2
    · exfalso
      have hlow : T.getD 0 0 ≤ T.getD i 0 - N := by omega
      obtain ⟨⟨_, h0s, _⟩, _⟩ := hTget 0 (by omega)
      have hq1 : q (T.getD 0 0) ≤ q (T.getD i 0 - N) :=
        hmono _ _ hlow (by omega)
      linarith
    · have hprevlt : T.getD (i - 1) 0 < T.getD i 0 :=
        sorted_getD_strict T hTpair (i - 1) i (by omega) hiT
      have hq2 : q (T.getD (i - 1) 0) ≤ q (T.getD i 0 - 1) :=
        hmono _ _ (by omega) (by omega)
      have h5 : (N : ℚ) * (q (T.getD i 0) - q (T.getD i 0 - 1))
          ≤ (N : ℚ) * (q (T.getD i 0) - q (T.getD (i - 1) 0)) := by
        apply mul_le_mul_of_nonneg_left
        · linarith
        · positivity
      linarith
  have hm1 : N - 1 + 1 = N := by omega
  have htele := teleGap (N : ℚ) (fun i => q (T.getD i 0)) (N - 1) (N - 1)
    (by
      intro i hi1 hi2
      apply hgap i (by omega) (by omega))
  rw [hm1] at htele
  have hidx : N - 1 + N = 2 * N - 1 := by omega
  rw [hidx] at htele
  have hcast : ((N - 1 : ℕ) : ℚ) + 1 = (N : ℚ) := by
    push_cast [Nat.cast_sub (by omega : 1 ≤ N)]
    ring
  rw [hcast] at htele
  obtain ⟨⟨_, hsA, hsB⟩, _⟩ := hTget (2 * N - 1) (by omega)
  obtain ⟨⟨_, hsC, hsD⟩, _⟩ := hTget (N - 1) (by omega)
  have hle1 : (N : ℚ) * (q (T.getD (2 * N - 1) 0) - q (T.getD (N - 1) 0))
      ≤ (N : ℚ) * 1 := by
    apply mul_le_mul_of_nonneg_left
    · linarith
    · positivity
  simp only at htele
  linarith

theorem countP_pairs_eq_range (Q : List (ℚ × Bool)) (w : ℚ → Bool) :
    Q.countP (fun p => p.2 && w p.1)
      = (List.range Q.length).countP (fun j => liveAt Q j && w (qAt Q j)) := by
  induction Q with
  | nil => simp
  | cons a t ih =>
    rcases a with ⟨x, b⟩
    rw [List.length_cons, List.range_succ_eq_map, List.countP_cons, List.countP_cons]
    rw [List.countP_map]
    have hswap : ((fun j => liveAt ((x, b) :: t) j && w (qAt ((x, b) :: t) j))
        ∘ Nat.succ) = (fun j => liveAt t j && w (qAt t j)) := by
      funext j
      simp [Function.comp, liveAt, qAt, List.getD]
    rw [hswap, ← ih]
    have h0 : liveAt ((x, b) :: t) 0 = b := by simp [liveAt, List.getD]
    have h1 : qAt ((x, b) :: t) 0 = x := by simp [qAt, List.getD]
    rw [h0, h1]

theorem countP_filter_map_eq_range (Q : List (ℚ × Bool)) (w : ℚ → Bool) :
    ((Q.filter (fun p => p.2)).map Prod.fst).countP w
      = (List.range Q.length).countP (fun j => liveAt Q j && w (qAt Q j)) := by
  rw [List.countP_map, List.countP_filter, ← countP_pairs_eq_range]
  congr 1
  funext p
  simp [Function.comp, Bool.and_comm]

theorem live_emissions_window_bound (N : ℕ) (hN : 0 < N)
    (evs : List (Event × ℚ))
    (hmono : List.Chain' (· ≤ ·) (evs.map Prod.snd)) (s : ℚ) :
    windowCount s (liveTimes N evs) ≤ 2 * N - 1 := by
  have hnil : lastN N (List.map Prod.fst ([] : List (ℚ × Bool))) = [] := by
    simp [lastN]
  have hgnil : goodTrace N [] := by
    intro j hj
    simp at hj
  have hbase := runTrace_invariant N hN evs [] (by simpa using hmono) hgnil
  rw [hnil] at hbase
  simp only [List.nil_append] at hbase
  obtain ⟨hgood, hchain⟩ := hbase
  have hmono2 : ∀ i j, i ≤ j → j < (runTrace N [] evs).length →
      qAt (runTrace N [] evs) i ≤ qAt (runTrace N [] evs) j := by
    intro i j hij hj
    have h := chainLe_getD_mono ((runTrace N [] evs).map Prod.fst) hchain i j hij
      (by simpa using hj)
    rw [getD_map_fst, getD_map_fst] at h
    exact h
  unfold windowCount liveTimes
  rw [countP_filter_map_eq_range]
  exact throttle_window_bound N hN (runTrace N [] evs).length
    (qAt (runTrace N [] evs)) (liveAt (runTrace N [] evs)) hmono2 hgood s

theorem live_emissions_window_bound_witness :
    windowCount 0 (liveTimes 30 [(evOut, 0), (evOut, 0)]) ≤ 2 * 30 - 1 :=
  live_emissions_window_bound 30 (by decide) [(evOut, 0), (evOut, 0)]
    (by simp) 0

def c1CexEvents : List (Event × ℚ) :=
  [(evOut, 0), (evOut, 0), (evOut, 0), (evOut, 0), (evOut, 0),
   (evOut, 21/100), (evOut, 42/100), (evOut, 63/100)]

theorem live_emissions_exceed_window_capacity :
    5 < windowCount 0 (liveTimes 5 c1CexEvents) := by
  have h : windowCount 0 (liveTimes 5 c1CexEvents) = 8 := by
    try simp [windowCount, liveTimes, c1CexEvents, runTrace, event_handler, shouldEmit,
        dequeAppend, evOut, MINIMAL_EVENTS, List.countP_cons]
    try norm_num
    try simp [windowCount, liveTimes, c1CexEvents, runTrace, event_handler, shouldEmit,
        dequeAppend, evOut, MINIMAL_EVENTS, List.countP_cons]
    try norm_num
    try simp [windowCount, liveTimes, c1CexEvents, runTrace, event_handler, shouldEmit,
        dequeAppend, evOut, MINIMAL_EVENTS, List.countP_cons]
    try norm_num
    try simp [windowCount, liveTimes, c1CexEvents, runTrace, event_handler, shouldEmit,
        dequeAppend, evOut, MINIMAL_EVENTS, List.countP_cons]
    try norm_num
    try simp [windowCount, liveTimes, c1CexEvents, runTrace, event_handler, shouldEmit,
        dequeAppend, evOut, MINIMAL_EVENTS, List.countP_cons]
    try norm_num
    try simp [windowCount, liveTimes, c1CexEvents, runTrace, event_handler, shouldEmit,
        dequeAppend, evOut, MINIMAL_EVENTS, List.countP_cons]
    try norm_num
    try simp [windowCount, liveTimes, c1CexEvents, runTrace, event_handler, shouldEmit,
        dequeAppend, evOut, MINIMAL_EVENTS, List.countP_cons]
    try norm_num
    try simp [windowCount, liveTimes, c1CexEvents, runTrace, event_handler, shouldEmit,
        dequeAppend, evOut, MINIMAL_EVENTS, List.countP_cons]
    try norm_num
    try simp [windowCount, liveTimes, c1CexEvents, runTrace, event_handler, shouldEmit,
        dequeAppend, evOut, MINIMAL_EVENTS, List.countP_cons]
    try norm_num
    try simp [windowCount, liveTimes, c1CexEvents, runTrace, event_handler, shouldEmit,
        dequeAppend, evOut, MINIMAL_EVENTS, List.countP_cons]
    try norm_num
  rw [h]
  decide


/-!
The deferred-update accumulator of `RunnerCallback`
(`delay_update` / `status_handler`, callback.py lines 109-120 and
271-275).  The Python dict `extra_update_fields` is modelled as an
association list with first-match lookup and in-place update; Python's
substring test `str(value) in stored` is `strContains`.
-/

def charsLead : List Char → List Char → Bool
  | [], _ => true
  | _ :: _, [] => false
  | a :: as, b :: bs => a = b && charsLead as bs

def charsContain (needle : List Char) : List Char → Bool
  | [] => charsLead needle []
  | b :: bs => charsLead needle (b :: bs) || charsContain needle bs

def strContains (hay needle : String) : Bool := charsContain needle.data hay.data

def alLookup : List (String × String) → String → Option String
  | [], _ => none
  | (k, v) :: t, key => if k = key then some v else alLookup t key

def alSet : List (String × String) → String → String → List (String × String)
  | [], key, val => [(key, val)]
  | (k, v) :: t, key, val =>
    if k = key then (k, val) :: t else (k, v) :: alSet t key val

def delayUpdateField (extra : List (String × String)) (skip_if_already_set : Bool)
    (key value : String) : List (String × String) :=
  match alLookup extra key with
  | some old =>
    if skip_if_already_set then extra
    else if key = "job_explanation" ∨ key = "result_traceback" then
      if strContains old value then extra
      else alSet extra key (old ++ "\n" ++ value)
    else alSet extra key value
  | none => alSet extra key value

def delay_update (extra : List (String × String)) (skip_if_already_set : Bool)
    (kwargs : List (String × String)) : List (String × String) :=
  kwargs.foldl (fun acc kv => delayUpdateField acc skip_if_already_set kv.1 kv.2) extra

def status_handler_error (extra : List (String × String))
    (result_traceback job_explanation : Option String) : List (String × String) :=
  let e1 := match result_traceback with
    | some v => if v ≠ "" then delay_update extra false [("result_traceback", v)] else extra
    | none => extra
  match job_explanation with
  | some v => if v ≠ "" then delay_update e1 false [("job_explanation", v)] else e1
  | none => e1

theorem alLookup_alSet (extra : List (String × String)) (key v : String) :
    alLookup (alSet extra key v) key = some v := by
  induction extra with
  | nil => simp [alSet, alLookup]
  | cons kv t ih =>
    rcases kv with ⟨k, w⟩
    by_cases h : k = key <;> simp [alSet, alLookup, h, ih]

theorem delay_update_merge_semantics
    (extra : List (String × String)) (key value old rt je : String)
    (hold : alLookup extra key = some old) (hrt : rt ≠ "") (hje : je ≠ "") :
    ((key = "job_explanation" ∨ key = "result_traceback") →
      ((strContains old value = true →
          delayUpdateField extra false key value = extra) ∧
       (strContains old value = false →
          alLookup (delayUpdateField extra false key value) key
            = some (old ++ "\n" ++ value)))) ∧
    (¬(key = "job_explanation" ∨ key = "result_traceback") →
      alLookup (delayUpdateField extra false key value) key = some value) ∧
    (delayUpdateField extra true key value = extra) ∧
    status_handler_error extra (some rt) (some je)
      = delay_update (delay_update extra false [("result_traceback", rt)]) false
          [("job_explanation", je)] := by
  refine ⟨?_, ?_, ?_, ?_⟩
  · intro hkey
    constructor
    · intro hsub
      simp [delayUpdateField, hold, hkey, hsub]
    · intro hsub
      simp [delayUpdateField, hold, hkey, hsub, alLookup_alSet]
  · intro hkey
    simp [delayUpdateField, hold, hkey, alLookup_alSet]
  · simp [delayUpdateField, hold]
  · simp [status_handler_error, hrt, hje]

theorem delay_update_merge_semantics_witness :
    (("result_traceback" = "job_explanation" ∨ "result_traceback" = "result_traceback") →
      ((strContains "boom" "om" = true →
          delayUpdateField [("result_traceback", "boom")] false "result_traceback" "om"
            = [("result_traceback", "boom")]) ∧
       (strContains "boom" "om" = false →
          alLookup (delayUpdateField [("result_traceback", "boom")] false
            "result_traceback" "om") "result_traceback"
            = some ("boom" ++ "\n" ++ "om")))) ∧
    (¬("result_traceback" = "job_explanation" ∨ "result_traceback" = "result_traceback") →
      alLookup (delayUpdateField [("result_traceback", "boom")] false
        "result_traceback" "om") "result_traceback" = some "om") ∧
    (delayUpdateField [("result_traceback", "boom")] true "result_traceback" "om"
      = [("result_traceback", "boom")]) ∧
    status_handler_error [("result_traceback", "boom")] (some "x") (some "y")
      = delay_update (delay_update [("result_traceback", "boom")] false
          [("result_traceback", "x")]) false [("job_explanation", "y")] :=
  delay_update_merge_semantics [("result_traceback", "boom")]
    "result_traceback" "om" "boom" "x" "y" (by decide) (by decide) (by decide)


/-!
The cluster membership policy engine:
`apply_cluster_membership_policies` (system.py lines 187-296).  Database
rows become explicit inputs; the advisory-lock wrapper is modelled
separately below; the computation on the namedtuple working state is
reproduced pass by pass.  Percentage comparisons (Python floats) are
modelled as exact rationals.
-/

/-- An `Instance` row as `apply_cluster_membership_policies` sees it. -/
structure PInstance where
  id : ℕ
  hostname : String
  node_type : String
  managed_by_policy : Bool
deriving DecidableEq, Repr

/-- An `InstanceGroup` row: declarative policy fields, the container-group
flag, and the stored membership (`prior_instances`, as instance ids). -/
structure PGroup where
  id : ℕ
  name : String
  policy_instance_list : List String
  policy_instance_minimum : ℕ
  policy_instance_percentage : ℕ
  is_container_group : Bool
  prior_instances : List ℕ
deriving DecidableEq, Repr

/-- The fields of a group the membership COMPUTATION reads (everything
except the container flag and the stored membership, which only the
diff/apply phase uses). -/
structure GPolicy where
  id : ℕ
  name : String
  policy_instance_list : List String
  policy_instance_minimum : ℕ
  policy_instance_percentage : ℕ
deriving DecidableEq, Repr

def PGroup.policyView (g : PGroup) : GPolicy :=
  ⟨g.id, g.name, g.policy_instance_list, g.policy_instance_minimum,
    g.policy_instance_percentage⟩

/-- The mutable per-group record of the computation (the `Group`
namedtuple): position in the input list, policy fields, and the
accumulating `instances` id list. -/
structure GState where
  idx : ℕ
  pol : GPolicy
  instances : List ℕ
deriving DecidableEq, Repr

/-- The mutable per-instance record (the `Node` namedtuple): the instance
and the ids of groups a policy pass has assigned it to. -/
structure NState where
  obj : PInstance
  groups : List ℕ
deriving DecidableEq, Repr

/-- Stable insertion keeping existing elements with keys `≤ key x` in
front: Python `sorted(..., key=...)` semantics. -/
def sInsert (key : α → ℕ) (x : α) : List α → List α
  | [] => [x]
  | y :: ys => if key y ≤ key x then y :: sInsert key x ys else x :: y :: ys

/-- Stable sort by a natural-number key (Python's `sorted`). -/
def stableSortBy (key : α → ℕ) (l : List α) : List α :=
  l.foldl (fun acc x => sInsert key x acc) []

/-- Python dict-comprehension lookup `instance_hostnames_map[hostname]`:
the last instance with the given hostname wins. -/
def hostLookup (insts : List PInstance) (h : String) : Option PInstance :=
  (insts.filter (fun i => i.hostname = h)).getLast?

/-- Seed a group's membership from its `policy_instance_list` (system.py
lines 214-219): unknown hostnames are skipped. -/
def seedGroup (insts : List PInstance) (pol : GPolicy) : List ℕ :=
  pol.policy_instance_list.filterMap (fun h => (hostLookup insts h).map (fun i => i.id))

/-- The excluded node type for a group (system.py lines 232 and 251):
execution nodes never join the control-plane group, control nodes never
join any other group. -/
def excludeTypeFor (controlName : String) (pol : GPolicy) : String :=
  if pol.name = controlName then "execution" else "control"

/-- The inner loop of the policy-minimum pass (system.py lines 234-245):
walk the load-sorted instances, skipping the excluded type, breaking once
the minimum is met, skipping existing members, otherwise appending.
Returns the group's final id list and the ids freshly added. -/
def minLoop (ex : String) (minCt : ℕ) : List NState → List ℕ → List ℕ × List ℕ
  | [], gInst => (gInst, [])
  | n :: rest, gInst =>
    if n.obj.node_type = ex then minLoop ex minCt rest gInst
    else if minCt ≤ gInst.length then (gInst, [])
    else if n.obj.id ∈ gInst then minLoop ex minCt rest gInst
    else
      match minLoop ex minCt rest (gInst ++ [n.obj.id]) with
      | (res, adds) => (res, n.obj.id :: adds)

/-- One group's policy-minimum step: sort instances by current assignment
count (stable, so ties break by the underlying id order), run `minLoop`,
and record the new assignment on each added instance. -/
def minPassOne (controlName : String) (g : GState) (nodes : List NState) :
    GState × List NState :=
  let ex := excludeTypeFor controlName g.pol
  let r := minLoop ex g.pol.policy_instance_minimum
    (stableSortBy (fun n => n.groups.length) nodes) g.instances
  (⟨g.idx, g.pol, r.1⟩,
    nodes.map (fun n =>
      if n.obj.id ∈ r.2 then ⟨n.obj, n.groups ++ [g.pol.id]⟩ else n))

/-- The policy-minimum pass (system.py lines 231-247): groups in ascending
order of current membership size; the master group list keeps its input
order. -/
def minPass (controlName : String) (gs : List GState) (nodes : List NState) :
    List GState × List NState :=
  (stableSortBy (fun g => g.instances.length) gs).foldl
    (fun acc g =>
      let r := minPassOne controlName g acc.2
      (acc.1.map (fun h => if h.idx = g.idx then r.1 else h), r.2))
    (gs, nodes)

/-- The inner loop of the percentage pass (system.py lines 256-267):
skip excluded type, skip existing members, break once
`100 * len(members) / pool ≥ percentage`, otherwise append. -/
def perLoop (ex : String) (pct : ℕ) (pool : ℕ) : List NState → List ℕ → List ℕ × List ℕ
  | [], gInst => (gInst, [])
  | n :: rest, gInst =>
    if n.obj.node_type = ex then perLoop ex pct pool rest gInst
    else if n.obj.id ∈ gInst then perLoop ex pct pool rest gInst
    else if (pct : ℚ) ≤ 100 * (gInst.length : ℚ) / (pool : ℚ) then (gInst, [])
    else
      match perLoop ex pct pool rest (gInst ++ [n.obj.id]) with
      | (res, adds) => (res, n.obj.id :: adds)

/-- One group's percentage step (system.py lines 250-267): a group with an
empty candidate pool is skipped. -/
def perPassOne (controlName : String) (g : GState) (nodes : List NState) :
    GState × List NState :=
  let ex := excludeTypeFor controlName g.pol
  let pool := (nodes.filter (fun n => n.obj.node_type ≠ ex)).length
  if pool = 0 then (g, nodes)
  else
    let r := perLoop ex g.pol.policy_instance_percentage pool
      (stableSortBy (fun n => n.groups.length) nodes) g.instances
    (⟨g.idx, g.pol, r.1⟩,
      nodes.map (fun n =>
        if n.obj.id ∈ r.2 then ⟨n.obj, n.groups ++ [g.pol.id]⟩ else n))

/-- The percentage pass, again ascending by current membership size. -/
def perPass (controlName : String) (gs : List GState) (nodes : List NState) :
    List GState × List NState :=
  (stableSortBy (fun g => g.instances.length) gs).foldl
    (fun acc g =>
      let r := perPassOne controlName g acc.2
      (acc.1.map (fun h => if h.idx = g.idx then r.1 else h), r.2))
    (gs, nodes)

/-- The full membership computation of `apply_cluster_membership_policies`
(system.py lines 200-269) on the policy views: hop nodes are excluded up
front and instances ordered by id; groups are seeded from their explicit
hostname lists; then the minimum and percentage passes run.  Returns the
computed member-id list of each group, in input order. -/
def computeCore (controlName : String) (instances : List PInstance)
    (pols : List GPolicy) : List (List ℕ) :=
  let all_instances := stableSortBy (fun i => i.id)
    (instances.filter (fun i => i.node_type ≠ "hop"))
  let seeded : List GState :=
    pols.enum.map (fun p => ⟨p.1, p.2, seedGroup all_instances p.2⟩)
  let actual : List NState :=
    (all_instances.filter (fun i => i.managed_by_policy)).map (fun i => ⟨i, []⟩)
  let r1 := minPass controlName seeded actual
  let r2 := perPass controlName r1.1 r1.2
  r2.1.map (fun g => g.instances)

def computeMembership (controlName : String) (instances : List PInstance)
    (groups : List PGroup) : List (List ℕ) :=
  computeCore controlName instances (groups.map PGroup.policyView)

/-- Python `set(a) == set(b)` on id lists. -/
def listSetEq (a b : List ℕ) : Bool :=
  a.all (fun x => x ∈ b) && b.all (fun x => x ∈ a)

/-- The change-detection step (system.py lines 272-279): some group's
computed membership differs, as a set, from its stored membership. -/
def needsChangeFn (groups : List PGroup) (computed : List (List ℕ)) : Bool :=
  (groups.zip computed).any (fun p => !listSetEq p.2 p.1.prior_instances)

/-- The per-group application step inside the diff transaction: container
groups are skipped, any other group's stored membership becomes the
computed set. -/
def applyGroup (p : PGroup × List ℕ) : PGroup :=
  if p.1.is_container_group then p.1 else { p.1 with prior_instances := p.2 }

/-- The apply phase (system.py lines 271-296): if no diff, stop; otherwise
additions and removals are applied per group on a differential basis. -/
def applyPolicies (controlName : String) (instances : List PInstance)
    (groups : List PGroup) : List PGroup :=
  let comp := computeMembership controlName instances groups
  if needsChangeFn groups comp then (groups.zip comp).map applyGroup
  else groups

def c5Insts : List PInstance :=
  [⟨1, "host-a", "control", true⟩, ⟨2, "host-b", "hybrid", true⟩,
   ⟨3, "host-c", "control", true⟩]

def c5Groups : List PGroup :=
  [⟨10, "workers", [], 1, 0, false, []⟩,
   ⟨11, "controlplane", [], 2, 0, false, []⟩]

theorem rat_pct_zero_le (a b : ℕ) : (0:ℚ) ≤ 100 * (a:ℚ) / (b:ℚ) := by positivity

theorem policy_minimum_scenario :
    computeMembership "controlplane" c5Insts c5Groups = [[2], [1, 3]] := by
  simp [computeMembership, computeCore, c5Insts, c5Groups, minPass, perPass,
    minPassOne, perPassOne, minLoop, perLoop, stableSortBy, sInsert, seedGroup,
    hostLookup, excludeTypeFor, PGroup.policyView, rat_pct_zero_le, List.enum]
  norm_num

def c3Groups : List PGroup := [⟨1, "tasks", [], 0, 0, true, [7]⟩]

theorem apply_policies_container_group_repeated_diff :
    needsChangeFn (applyPolicies "controlplane" [] c3Groups)
      (computeMembership "controlplane" [] (applyPolicies "controlplane" [] c3Groups))
      = true := by
  simp [applyPolicies, applyGroup, needsChangeFn, computeMembership, computeCore, c3Groups,
    minPass, perPass, minPassOne, perPassOne, minLoop, perLoop, stableSortBy, sInsert,
    seedGroup, hostLookup, excludeTypeFor, PGroup.policyView, rat_pct_zero_le,
    listSetEq, List.enum]

def c4Insts : List PInstance := [⟨5, "hop-node", "hop", true⟩]
def c4Groups : List PGroup := [⟨1, "tasks", [], 0, 0, true, [5]⟩]

theorem container_group_retains_hop_member :
    (applyPolicies "controlplane" c4Insts c4Groups).map (fun g => g.prior_instances)
      = [[5]] ∧ (c4Insts.getD 0 ⟨0, "", "", false⟩).node_type = "hop" := by
  constructor
  · simp [applyPolicies, applyGroup, needsChangeFn, computeMembership, computeCore, c4Insts,
      c4Groups, minPass, perPass, minPassOne, perPassOne, minLoop, perLoop,
      stableSortBy, sInsert, seedGroup, hostLookup, excludeTypeFor,
      PGroup.policyView, rat_pct_zero_le, listSetEq, List.enum]
  · rfl

theorem sInsert_mem (key : α → ℕ) (x y : α) (l : List α) :
    y ∈ sInsert key x l ↔ y = x ∨ y ∈ l := by
  induction l with
  | nil => simp [sInsert]
  | cons a t ih =>
    by_cases h : key a ≤ key x
    · rw [sInsert, if_pos h]
      simp only [List.mem_cons, ih]
      tauto
    · rw [sInsert, if_neg h]
      simp only [List.mem_cons]

theorem stableSortBy_mem (key : α → ℕ) (l : List α) (y : α) :
    y ∈ stableSortBy key l ↔ y ∈ l := by
  have hgen : ∀ (l acc : List α), y ∈ l.foldl (fun a x => sInsert key x a) acc
      ↔ y ∈ acc ∨ y ∈ l := by
    intro l
    induction l with
    | nil => intro acc; simp
    | cons a t ih =>
      intro acc
      rw [List.foldl_cons, ih, sInsert_mem]
      simp only [List.mem_cons]
      tauto
  rw [stableSortBy, hgen]
  simp

theorem hostLookup_mem (insts : List PInstance) (h : String) (i : PInstance)
    (hl : hostLookup insts h = some i) : i ∈ insts := by
  unfold hostLookup at hl
  obtain ⟨hne, heq⟩ := List.mem_getLast?_eq_getLast (Option.mem_def.mpr hl)
  subst heq
  exact (List.mem_filter.mp (List.getLast_mem hne)).1

theorem seedGroup_mem (insts : List PInstance) (pol : GPolicy) (x : ℕ)
    (hx : x ∈ seedGroup insts pol) : ∃ i ∈ insts, i.id = x := by
  unfold seedGroup at hx
  obtain ⟨h, _, hmap⟩ := List.mem_filterMap.mp hx
  obtain ⟨i, hfind, hid⟩ := Option.map_eq_some'.mp hmap
  exact ⟨i, hostLookup_mem insts h i hfind, hid⟩

theorem minLoop_mem_fst (ex : String) (minCt : ℕ) :
    ∀ (ns : List NState) (gInst : List ℕ) (x : ℕ),
      x ∈ (minLoop ex minCt ns gInst).1 →
      x ∈ gInst ∨ ∃ n ∈ ns, n.obj.id = x := by
  intro ns
  induction ns with
  | nil =>
    intro gInst x hx
    simp [minLoop] at hx
    exact Or.inl hx
  | cons n rest ih =>
    intro gInst x hx
    unfold minLoop at hx
    by_cases h1 : n.obj.node_type = ex
    · rw [if_pos h1] at hx
      rcases ih gInst x hx with h | ⟨m, hm, he⟩
      · exact Or.inl h
      · exact Or.inr ⟨m, List.mem_cons_of_mem n hm, he⟩
    · rw [if_neg h1] at hx
      by_cases h2 : minCt ≤ gInst.length
      · rw [if_pos h2] at hx
        exact Or.inl hx
      · rw [if_neg h2] at hx
        by_cases h3 : n.obj.id ∈ gInst
        · rw [if_pos h3] at hx
          rcases ih gInst x hx with h | ⟨m, hm, he⟩
          · exact Or.inl h
          · exact Or.inr ⟨m, List.mem_cons_of_mem n hm, he⟩
        · rw [if_neg h3] at hx
          rcases ih (gInst ++ [n.obj.id]) x (by
            rcases hq : minLoop ex minCt rest (gInst ++ [n.obj.id]) with ⟨res, adds⟩
            rw [hq] at hx
            simpa using hx) with h | ⟨m, hm, he⟩
          · rcases List.mem_append.mp h with h4 | h4
            · exact Or.inl h4
            · exact Or.inr ⟨n, List.mem_cons_self n rest, by simp at h4; omega⟩
          · exact Or.inr ⟨m, List.mem_cons_of_mem n hm, he⟩

theorem perLoop_mem_fst (ex : String) (pct pool : ℕ) :
    ∀ (ns : List NState) (gInst : List ℕ) (x : ℕ),
      x ∈ (perLoop ex pct pool ns gInst).1 →
      x ∈ gInst ∨ ∃ n ∈ ns, n.obj.id = x := by
  intro ns
  induction ns with
  | nil =>
    intro gInst x hx
    simp [perLoop] at hx
    exact Or.inl hx
  | cons n rest ih =>
    intro gInst x hx
    unfold perLoop at hx
    by_cases h1 : n.obj.node_type = ex
    · rw [if_pos h1] at hx
      rcases ih gInst x hx with h | ⟨m, hm, he⟩
      · exact Or.inl h
      · exact Or.inr ⟨m, List.mem_cons_of_mem n hm, he⟩
    · rw [if_neg h1] at hx
      by_cases h2 : n.obj.id ∈ gInst
      · rw [if_pos h2] at hx
        rcases ih gInst x hx with h | ⟨m, hm, he⟩
        · exact Or.inl h
        · exact Or.inr ⟨m, List.mem_cons_of_mem n hm, he⟩
      · rw [if_neg h2] at hx
        by_cases h3 : (pct : ℚ) ≤ 100 * (gInst.length : ℚ) / (pool : ℚ)
        · rw [if_pos h3] at hx
          exact Or.inl hx
        · rw [if_neg h3] at hx
          rcases ih (gInst ++ [n.obj.id]) x (by
            rcases hq : perLoop ex pct pool rest (gInst ++ [n.obj.id]) with ⟨res, adds⟩
            rw [hq] at hx
            simpa using hx) with h | ⟨m, hm, he⟩
          · rcases List.mem_append.mp h with h4 | h4
            · exact Or.inl h4
            · exact Or.inr ⟨n, List.mem_cons_self n rest, by simp at h4; omega⟩
          · exact Or.inr ⟨m, List.mem_cons_of_mem n hm, he⟩

theorem foldPass_inv (Qp : ℕ → Prop)
    (one : GState → List NState → GState × List NState)
    (hone : ∀ g nodes, (∀ x ∈ g.instances, Qp x) → (∀ n ∈ nodes, Qp n.obj.id) →
      (∀ x ∈ (one g nodes).1.instances, Qp x) ∧
      (∀ n ∈ (one g nodes).2, Qp n.obj.id)) :
    ∀ (order gs : List GState) (nodes : List NState),
      (∀ g ∈ order, ∀ x ∈ g.instances, Qp x) →
      (∀ g ∈ gs, ∀ x ∈ g.instances, Qp x) →
      (∀ n ∈ nodes, Qp n.obj.id) →
      (∀ g ∈ (order.foldl (fun acc g =>
          (acc.1.map (fun h => if h.idx = g.idx then (one g acc.2).1 else h),
            (one g acc.2).2)) (gs, nodes)).1,
        ∀ x ∈ g.instances, Qp x) ∧
      (∀ n ∈ (order.foldl (fun acc g =>
          (acc.1.map (fun h => if h.idx = g.idx then (one g acc.2).1 else h),
            (one g acc.2).2)) (gs, nodes)).2, Qp n.obj.id) := by
  intro order
  induction order with
  | nil =>
    intro gs nodes _ h2 h3
    exact ⟨h2, h3⟩
  | cons g rest ih =>
    intro gs nodes h1 h2 h3
    rw [List.foldl_cons]
    have hg : ∀ x ∈ g.instances, Qp x := h1 g (List.mem_cons_self g rest)
    have hr := hone g nodes hg h3
    refine ih _ _ (fun g2 hg2 => h1 g2 (List.mem_cons_of_mem g hg2)) ?_ hr.2
    intro g2 hg2 x hx
    rcases List.mem_map.mp hg2 with ⟨g3, hg3, heq⟩
    by_cases hc : g3.idx = g.idx
    · rw [if_pos hc] at heq
      exact hr.1 x (heq ▸ hx)
    · rw [if_neg hc] at heq
      exact h2 g3 hg3 x (heq ▸ hx)

theorem minPassOne_inv (Qp : ℕ → Prop) (c : String) (g : GState) (nodes : List NState)
    (hg : ∀ x ∈ g.instances, Qp x) (hn : ∀ n ∈ nodes, Qp n.obj.id) :
    (∀ x ∈ (minPassOne c g nodes).1.instances, Qp x) ∧
    (∀ n ∈ (minPassOne c g nodes).2, Qp n.obj.id) := by
  constructor
  · intro x hx
    have hx2 : x ∈ (minLoop (excludeTypeFor c g.pol) g.pol.policy_instance_minimum
        (stableSortBy (fun n => n.groups.length) nodes) g.instances).1 := hx
    rcases minLoop_mem_fst _ _ _ _ _ hx2 with h | ⟨n, hn2, he⟩
    · exact hg x h
    · exact he ▸ hn n ((stableSortBy_mem _ nodes n).mp hn2)
  · intro n hn2
    rcases List.mem_map.mp hn2 with ⟨m, hm, heq⟩
    by_cases hc : m.obj.id ∈ (minLoop (excludeTypeFor c g.pol)
        g.pol.policy_instance_minimum
        (stableSortBy (fun n => n.groups.length) nodes) g.instances).2
    · rw [if_pos hc] at heq
      exact heq ▸ hn m hm
    · rw [if_neg hc] at heq
      exact heq ▸ hn m hm

theorem perPassOne_inv (Qp : ℕ → Prop) (c : String) (g : GState) (nodes : List NState)
    (hg : ∀ x ∈ g.instances, Qp x) (hn : ∀ n ∈ nodes, Qp n.obj.id) :
    (∀ x ∈ (perPassOne c g nodes).1.instances, Qp x) ∧
    (∀ n ∈ (perPassOne c g nodes).2, Qp n.obj.id) := by
  unfold perPassOne
  by_cases hp : (nodes.filter (fun n => n.obj.node_type ≠ excludeTypeFor c g.pol)).length = 0
  · rw [if_pos hp]
    exact ⟨hg, hn⟩
  · rw [if_neg hp]
    constructor
    · intro x hx
      rcases perLoop_mem_fst _ _ _ _ _ _ hx with h | ⟨n, hn2, he⟩
      · exact hg x h
      · exact he ▸ hn n ((stableSortBy_mem _ nodes n).mp hn2)
    · intro n hn2
      rcases List.mem_map.mp hn2 with ⟨m, hm, heq⟩
      by_cases hc : m.obj.id ∈ (perLoop (excludeTypeFor c g.pol)
          g.pol.policy_instance_percentage
          (nodes.filter (fun n => n.obj.node_type ≠ excludeTypeFor c g.pol)).length
          (stableSortBy (fun n => n.groups.length) nodes) g.instances).2
      · rw [if_pos hc] at heq
        exact heq ▸ hn m hm
      · rw [if_neg hc] at heq
        exact heq ▸ hn m hm

theorem computeCore_mem (c : String) (insts : List PInstance) (pols : List GPolicy) :
    ∀ m ∈ computeCore c insts pols, ∀ x ∈ m,
      ∃ j ∈ insts, j.id = x ∧ j.node_type ≠ "hop" := by
  intro m hm x hx
  set Qp : ℕ → Prop := fun y => ∃ j ∈ insts, j.id = y ∧ j.node_type ≠ "hop" with hQp
  set all_instances := stableSortBy (fun i => i.id)
    (insts.filter (fun i => i.node_type ≠ "hop")) with hall
  have hallmem : ∀ i ∈ all_instances, Qp i.id := by
    intro i hi
    have h2 := (stableSortBy_mem _ _ i).mp hi
    have h3 := List.mem_filter.mp h2
    exact ⟨i, h3.1, rfl, by simpa using h3.2⟩
  set seeded : List GState :=
    pols.enum.map (fun p => ⟨p.1, p.2, seedGroup all_instances p.2⟩) with hseed
  have hseedinv : ∀ g ∈ seeded, ∀ x ∈ g.instances, Qp x := by
    intro g hg y hy
    rcases List.mem_map.mp hg with ⟨p, _, heq⟩
    rcases seedGroup_mem all_instances p.2 y (by rw [← heq] at hy; exact hy) with ⟨i, hi, hid⟩
    exact hid ▸ hallmem i hi
  set actual : List NState :=
    (all_instances.filter (fun i => i.managed_by_policy)).map (fun i => ⟨i, []⟩) with hact
  have hactinv : ∀ n ∈ actual, Qp n.obj.id := by
    intro n hn
    rcases List.mem_map.mp hn with ⟨i, hi, heq⟩
    exact heq ▸ hallmem i (List.mem_filter.mp hi).1
  have h1 := foldPass_inv Qp (minPassOne c) (minPassOne_inv Qp c)
    (stableSortBy (fun g => g.instances.length) seeded) seeded actual
    (fun g hg => hseedinv g ((stableSortBy_mem _ _ g).mp hg)) hseedinv hactinv
  have h2 := foldPass_inv Qp (perPassOne c) (perPassOne_inv Qp c)
    (stableSortBy (fun g => g.instances.length) (minPass c seeded actual).1)
    (minPass c seeded actual).1 (minPass c seeded actual).2
    (fun g hg => h1.1 g ((stableSortBy_mem _ _ g).mp hg)) h1.1 h1.2
  have hm2 : m ∈ (perPass c (minPass c seeded actual).1
      (minPass c seeded actual).2).1.map (fun g => g.instances) := hm
  rcases List.mem_map.mp hm2 with ⟨g, hg, heq⟩
  exact h2.1 g hg x (heq ▸ hx)

theorem foldPass_fst_length
    (one : GState → List NState → GState × List NState) :
    ∀ (order gs : List GState) (nodes : List NState),
      ((order.foldl (fun acc g =>
          (acc.1.map (fun h => if h.idx = g.idx then (one g acc.2).1 else h),
            (one g acc.2).2)) (gs, nodes)).1).length = gs.length := by
  intro order
  induction order with
  | nil => intro gs nodes; rfl
  | cons g rest ih =>
    intro gs nodes
    rw [List.foldl_cons]
    rw [ih]
    simp

theorem computeCore_length (c : String) (insts : List PInstance)
    (pols : List GPolicy) : (computeCore c insts pols).length = pols.length := by
  unfold computeCore minPass perPass
  rw [List.length_map, foldPass_fst_length, foldPass_fst_length]
  simp

theorem computeMembership_length (c : String) (insts : List PInstance)
    (gs : List PGroup) : (computeMembership c insts gs).length = gs.length := by
  unfold computeMembership
  rw [computeCore_length]
  simp

theorem mem_zip_left (gs : List PGroup) :
    ∀ (comp : List (List ℕ)) (g : PGroup), g ∈ gs → gs.length ≤ comp.length →
      ∃ cm, (g, cm) ∈ gs.zip comp ∧ cm ∈ comp := by
  induction gs with
  | nil => intro comp g hg; simp at hg
  | cons a t ih =>
    intro comp g hg hlen
    rcases comp with _ | ⟨c0, crest⟩
    · simp at hlen
    · rcases List.mem_cons.mp hg with h | h
      · exact ⟨c0, by simp [h], List.mem_cons_self c0 crest⟩
      · rcases ih crest g h (by simpa using hlen) with ⟨cm, h1, h2⟩
        exact ⟨cm, List.mem_cons_of_mem _ h1, List.mem_cons_of_mem _ h2⟩

theorem listSetEq_mem_iff (a b : List ℕ) (h : listSetEq a b = true) (x : ℕ) :
    x ∈ a ↔ x ∈ b := by
  unfold listSetEq at h
  simp only [Bool.and_eq_true, List.all_eq_true, decide_eq_true_eq] at h
  exact ⟨fun hx => h.1 x hx, fun hx => h.2 x hx⟩

theorem computed_membership_excludes_hop_nodes (c : String) (insts : List PInstance)
    (gs : List PGroup) (hids : (insts.map (fun i => i.id)).Nodup)
    (hop : PInstance) (hhop : hop ∈ insts) (htype : hop.node_type = "hop") :
    (∀ m ∈ computeMembership c insts gs, hop.id ∉ m) ∧
    (∀ g2 ∈ applyPolicies c insts gs, g2.is_container_group = false →
      hop.id ∉ g2.prior_instances) := by
  have hmain : ∀ m ∈ computeMembership c insts gs, hop.id ∉ m := by
    intro m hm hmem
    rcases computeCore_mem c insts (gs.map PGroup.policyView) m hm hop.id hmem
      with ⟨j, hj, hjid, hjtype⟩
    have hje : j = hop := List.inj_on_of_nodup_map hids hj hhop hjid
    exact hjtype (hje ▸ htype)
  refine ⟨hmain, ?_⟩
  intro g2 hg2 hcont hmem
  unfold applyPolicies at hg2
  by_cases hch : needsChangeFn gs (computeMembership c insts gs) = true
  · rw [if_pos hch] at hg2
    rcases List.mem_map.mp hg2 with ⟨p, hp, heq⟩
    unfold applyGroup at heq
    by_cases hic : p.1.is_container_group
    · rw [if_pos hic] at heq
      rw [← heq] at hcont
      rw [hcont] at hic
      exact Bool.false_ne_true hic
    · rw [if_neg hic] at heq
      have hprior : g2.prior_instances = p.2 := by rw [← heq]
      have hpc : p.2 ∈ computeMembership c insts gs := (List.of_mem_zip hp).2
      exact hmain p.2 hpc (hprior ▸ hmem)
  · rw [if_neg hch] at hg2
    have hch2 : needsChangeFn gs (computeMembership c insts gs) = false := by
      revert hch
      cases needsChangeFn gs (computeMembership c insts gs) <;> simp
    have hlen : gs.length ≤ (computeMembership c insts gs).length :=
      le_of_eq (computeMembership_length c insts gs).symm
    rcases mem_zip_left gs _ g2 hg2 hlen with ⟨cm, hzip, hcm⟩
    have hall := List.any_eq_false.mp hch2
    have hseq : listSetEq cm g2.prior_instances = true := by
      have h3 := hall (g2, cm) hzip
      simpa using h3
    exact hmain cm hcm ((listSetEq_mem_iff cm g2.prior_instances hseq hop.id).mpr hmem)

theorem listSetEq_refl (a : List ℕ) : listSetEq a a = true := by
  simp [listSetEq, List.all_eq_true]

theorem map_policyView_applyGroup (gs : List PGroup) :
    ∀ (comp : List (List ℕ)),
      ((gs.zip comp).map applyGroup).map PGroup.policyView
        = ((gs.zip comp).map Prod.fst).map PGroup.policyView := by
  induction gs with
  | nil => intro comp; simp
  | cons g t ih =>
    intro comp
    rcases comp with _ | ⟨c0, crest⟩
    · simp
    · simp only [List.zip_cons_cons, List.map_cons, ih]
      congr 1
      unfold applyGroup PGroup.policyView
      by_cases hic : g.is_container_group <;> simp [hic]

theorem applyPolicies_policyView (c : String) (insts : List PInstance)
    (gs : List PGroup) :
    (applyPolicies c insts gs).map PGroup.policyView = gs.map PGroup.policyView := by
  unfold applyPolicies
  by_cases hch : needsChangeFn gs (computeMembership c insts gs) = true
  · rw [if_pos hch, map_policyView_applyGroup]
    rw [List.map_fst_zip]
    rw [computeMembership_length]
  · rw [if_neg hch]

theorem computeMembership_applyPolicies (c : String) (insts : List PInstance)
    (gs : List PGroup) :
    computeMembership c insts (applyPolicies c insts gs)
      = computeMembership c insts gs := by
  unfold computeMembership
  rw [applyPolicies_policyView]

theorem apply_zip_idem (gs : List PGroup) :
    ∀ (comp : List (List ℕ)),
      ((((gs.zip comp).map applyGroup).zip comp).map applyGroup)
        = (gs.zip comp).map applyGroup := by
  induction gs with
  | nil => intro comp; simp
  | cons g t ih =>
    intro comp
    rcases comp with _ | ⟨c0, crest⟩
    · simp
    · simp only [List.zip_cons_cons, List.map_cons, ih]
      congr 1
      unfold applyGroup
      by_cases hic : g.is_container_group
      · simp [hic]
      · simp [hic]

theorem zipped_apply_setEq (gs : List PGroup) :
    ∀ (comp : List (List ℕ)),
      (∀ g ∈ gs, g.is_container_group = false) →
      ∀ p ∈ ((gs.zip comp).map applyGroup).zip comp,
        listSetEq p.2 p.1.prior_instances = true := by
  induction gs with
  | nil => intro comp _ p hp; simp at hp
  | cons g t ih =>
    intro comp hnc p hp
    rcases comp with _ | ⟨c0, crest⟩
    · simp at hp
    · simp only [List.zip_cons_cons, List.map_cons] at hp
      rcases List.mem_cons.mp hp with h | h
    
      · subst h
        have hg : g.is_container_group = false := hnc g (List.mem_cons_self g t)
        simp only [applyGroup, hg, Bool.false_eq_true, if_false]
        exact listSetEq_refl c0
      · exact ih crest (fun g2 hg2 => hnc g2 (List.mem_cons_of_mem g hg2)) p h

theorem apply_policies_second_run_stable (c : String) (insts : List PInstance)
    (gs : List PGroup) :
    computeMembership c insts (applyPolicies c insts gs)
      = computeMembership c insts gs ∧
    applyPolicies c insts (applyPolicies c insts gs) = applyPolicies c insts gs ∧
    ((∀ g ∈ gs, g.is_container_group = false) →
      needsChangeFn (applyPolicies c insts gs)
        (computeMembership c insts (applyPolicies c insts gs)) = false) := by
  have hcm := computeMembership_applyPolicies c insts gs
  refine ⟨hcm, ?_, ?_⟩
  · by_cases hch : needsChangeFn gs (computeMembership c insts gs) = true
    · have h1 : applyPolicies c insts gs
          = (gs.zip (computeMembership c insts gs)).map applyGroup := by
        unfold applyPolicies
        rw [if_pos hch]
      rw [h1] at hcm ⊢
      unfold applyPolicies
      rw [hcm]
      by_cases hch2 : needsChangeFn
          ((gs.zip (computeMembership c insts gs)).map applyGroup)
          (computeMembership c insts gs) = true
      · rw [if_pos hch2]
        exact apply_zip_idem gs (computeMembership c insts gs)
      · rw [if_neg hch2]
    · have h1 : applyPolicies c insts gs = gs := by
        unfold applyPolicies
        rw [if_neg hch]
      rw [h1]
      exact h1
  · intro hnc
    rw [hcm]
    by_cases hch : needsChangeFn gs (computeMembership c insts gs) = true
    · have h1 : applyPolicies c insts gs
          = (gs.zip (computeMembership c insts gs)).map applyGroup := by
        unfold applyPolicies
        rw [if_pos hch]
      rw [h1]
      unfold needsChangeFn
      rw [List.any_eq_false]
      intro p hp
      have := zipped_apply_setEq gs (computeMembership c insts gs) hnc p hp
      simp [this]
    · have h1 : applyPolicies c insts gs = gs := by
        unfold applyPolicies
        rw [if_neg hch]
      rw [h1]
      revert hch
      cases needsChangeFn gs (computeMembership c insts gs) <;> simp

theorem apply_policies_second_run_stable_witness :
    computeMembership "controlplane" c5Insts (applyPolicies "controlplane" c5Insts c5Groups)
      = computeMembership "controlplane" c5Insts c5Groups ∧
    applyPolicies "controlplane" c5Insts (applyPolicies "controlplane" c5Insts c5Groups)
      = applyPolicies "controlplane" c5Insts c5Groups ∧
    ((∀ g ∈ c5Groups, g.is_container_group = false) →
      needsChangeFn (applyPolicies "controlplane" c5Insts c5Groups)
        (computeMembership "controlplane" c5Insts
          (applyPolicies "controlplane" c5Insts c5Groups)) = false) :=
  apply_policies_second_run_stable "controlplane" c5Insts c5Groups

def c4wInsts : List PInstance :=
  [⟨5, "hop-node", "hop", true⟩, ⟨6, "exec-node", "execution", true⟩]

def c4wGroups : List PGroup := [⟨1, "tasks", [], 1, 0, false, [5]⟩]

theorem computed_membership_excludes_hop_nodes_witness :
    (∀ m ∈ computeMembership "controlplane" c4wInsts c4wGroups,
      (⟨5, "hop-node", "hop", true⟩ : PInstance).id ∉ m) ∧
    (∀ g2 ∈ applyPolicies "controlplane" c4wInsts c4wGroups,
      g2.is_container_group = false →
      (⟨5, "hop-node", "hop", true⟩ : PInstance).id ∉ g2.prior_instances) :=
  computed_membership_excludes_hop_nodes "controlplane" c4wInsts c4wGroups
    (by decide) ⟨5, "hop-node", "hop", true⟩ (by decide) rfl

/-!
Advisory-lock usage of the membership-policy apply step and the periodic
scheduler, and the cluster heartbeat (system.py lines 187-198, 600-695,
759-766).
-/

/-- Outcome of running a lock-guarded cycle while another caller may hold
the lock: the body ran (after waiting for the holder or not), or the whole
cycle was skipped. -/
inductive LockCycle where
  | executed (waitedForHolder : Bool)
  | skippedCycle
deriving DecidableEq, Repr

/-- `advisory_lock(name, wait=w)` as a context manager: with `wait=True`
the caller blocks until the holder releases and the body always runs; with
`wait=False` the body sees `acquired=False` when the lock is held. -/
def advisoryLockRun (waitFlag heldElsewhere : Bool) : LockCycle :=
  if heldElsewhere then
    if waitFlag then LockCycle.executed true else LockCycle.skippedCycle
  else LockCycle.executed false

/-- system.py line 192: `apply_cluster_membership_policies` enters
`advisory_lock('cluster_policy_lock', wait=True)` and even times how long
it waited; the body always runs. -/
def applyPoliciesLockCycle (heldElsewhere : Bool) : LockCycle :=
  advisoryLockRun true heldElsewhere

/-- system.py lines 762-765: `awx_periodic_scheduler` uses
`advisory_lock('awx_periodic_scheduler_lock', wait=False)` and returns
immediately when `acquired is False`. -/
def periodicSchedulerLockCycle (heldElsewhere : Bool) : LockCycle :=
  advisoryLockRun false heldElsewhere

/-- C6 counterexample: with the lock held elsewhere, the membership-policy
apply step BLOCKS until the holder releases and then runs its body — it
does not skip the cycle as claimed. -/
theorem apply_policies_lock_blocks_when_held :
    applyPoliciesLockCycle true = LockCycle.executed true := rfl

/-- C6 (amended): only the periodic scheduler acquires its cluster lock
non-blocking and skips the cycle when it is held; the membership-policy
apply step acquires with `wait=True`, so it never skips a cycle and waits
for a contended lock instead. -/
theorem lock_modes_of_policy_apply_and_scheduler :
    (∀ held, periodicSchedulerLockCycle held
      = if held then LockCycle.skippedCycle else LockCycle.executed false) ∧
    (∀ held, applyPoliciesLockCycle held ≠ LockCycle.skippedCycle) ∧
    applyPoliciesLockCycle true = LockCycle.executed true := by
  refine ⟨?_, ?_, rfl⟩ <;> decide

/-- An `Instance` row as `cluster_node_heartbeat` sees it. -/
structure HInstance where
  hostname : String
  node_type : String
  node_state : String
  last_seen : Option ℚ
  capacity : ℕ
  version : String
deriving DecidableEq, Repr

/-- Modelled from the spec: `Instance.is_lost` lives in the models module,
outside the given sources; the spec defines lost as "any node whose
`last_seen` is older than a liveness threshold" (and a node with no
recorded `last_seen` cannot be proven alive). -/
def isLost (last_seen : Option ℚ) (nowT threshold : ℚ) : Bool :=
  match last_seen with
  | none => true
  | some t => decide (threshold < nowT - t)

/-- A Python value as it appears in the reap error handler: either the
SQLSTATE string carried by the psycopg error instance, or an exception
class from `psycopg.errors`. -/
inductive PyObj where
  | pyStr (s : String)
  | pyExcClass (n : String)
deriving DecidableEq, Repr

/-- Python `==` on those values: a string never equals an exception
class. -/
def pyEq : PyObj → PyObj → Bool
  | PyObj.pyStr a, PyObj.pyStr b => a = b
  | PyObj.pyExcClass a, PyObj.pyExcClass b => a = b
  | _, _ => false

/-- The class `psycopg.errors.NoData` (SQLSTATE '02000'). -/
def psycopg_errors_NoData : PyObj := PyObj.pyExcClass "NoData"

/-- How a `DatabaseError` raised while deprovisioning or marking a lost
node offline is logged. -/
inductive DbErrorLog where
  | benignDebug
  | loggedException
  | noSqlStateException
deriving DecidableEq, Repr

/-- system.py lines 674-686: the error's `__cause__.sqlstate` (the
SQLSTATE string, or absent) is compared with `psycopg.errors.NoData` —
the exception CLASS — via `sqlstate == psycopg.errors.NoData`; nothing is
re-raised in any branch. -/
def handleReapDbError : Option String → DbErrorLog
  | some sqlstate =>
    if pyEq (PyObj.pyStr sqlstate) psycopg_errors_NoData then
      DbErrorLog.benignDebug
    else DbErrorLog.loggedException
  | none => DbErrorLog.noSqlStateException

/-- The side effects of one heartbeat cycle that the claims talk about. -/
structure HBResult where
  rejoinReturn : Bool
  hostNotFound : Bool
  shutdownRaised : Bool
  reaped : List String
  deprovisioned : List String
  markedOffline : List String
  dbLogs : List (String × DbErrorLog)
  localReapRun : Bool
deriving DecidableEq, Repr

/-- Working lists of the lost-node loop. -/
structure LostAcc where
  reaped : List String
  deprovisioned : List String
  markedOffline : List String
  dbLogs : List (String × DbErrorLog)
deriving DecidableEq, Repr

/-- One iteration of the lost-node loop (system.py lines 658-686): reap
the node's active and waiting work, then auto-deprovision control nodes or
mark ready nodes offline; a `DatabaseError` (surfaced through the `dbErr`
oracle as the optional SQLSTATE of its cause) is classified by
`handleReapDbError` and never aborts the loop. -/
def processLostOne (autoDeprovision : Bool)
    (dbErr : String → Option (Option String))
    (acc : LostAcc) (inst : HInstance) : LostAcc :=
  let acc1 := { acc with reaped := acc.reaped ++ [inst.hostname] }
  if autoDeprovision = true ∧ inst.node_type = "control" then
    match dbErr inst.hostname with
    | none =>
      { acc1 with deprovisioned := acc1.deprovisioned ++ [inst.hostname] }
    | some cause =>
      { acc1 with dbLogs := acc1.dbLogs ++ [(inst.hostname, handleReapDbError cause)] }
  else if inst.node_state = "ready" then
    match dbErr inst.hostname with
    | none =>
      { acc1 with markedOffline := acc1.markedOffline ++ [inst.hostname] }
    | some cause =>
      { acc1 with dbLogs := acc1.dbLogs ++ [(inst.hostname, handleReapDbError cause)] }
  else acc1

/-- The version-skew check (system.py lines 641-656): some remaining peer
that is not an execution or hop node, has a meaningful version, and
reports a strictly newer version than this process (while DEBUG is off)
forces a fatal shutdown before any reaping happens.  `versionGt` stands
for the `packaging` comparison of the dash-stripped version strings. -/
def versionSkewRaise (debugMode : Bool) (appVersion : String)
    (versionGt : String → String → Bool) (remaining : List HInstance) : Bool :=
  remaining.any (fun o =>
    if o.node_type = "execution" ∨ o.node_type = "hop" then false
    else if o.version = "" ∨ o.version.startsWith "ansible-runner" then false
    else versionGt o.version appVersion && !debugMode)

/-- The part of the heartbeat after the self-node update: version-skew
check, lost-node loop, then the local reap pass (which runs only when the
dispatcher reported its active worker tasks). -/
def heartbeatTail (autoDeprovision debugMode workerTasksGiven : Bool)
    (appVersion : String) (versionGt : String → String → Bool)
    (dbErr : String → Option (Option String))
    (remaining lost : List HInstance) : HBResult :=
  if versionSkewRaise debugMode appVersion versionGt remaining then
    ⟨false, false, true, [], [], [], [], false⟩
  else
    let acc := lost.foldl (processLostOne autoDeprovision dbErr) ⟨[], [], [], []⟩
    ⟨false, false, false, acc.reaped, acc.deprovisioned, acc.markedOffline,
      acc.dbLogs, workerTasksGiven⟩

/-- `cluster_node_heartbeat` (system.py lines 600-695) on explicit state:
find self; split off lost nodes (non-self, `is_lost`); refresh self via
`local_health_check` (the `healthCheck` parameter — the health check
itself lives outside the given sources); if self was itself lost AND its
refreshed capacity is non-zero, log the rejoin and return without further
side effects; an unknown self is re-registered under auto-deprovision and
otherwise raises; then the version check and reap passes run. -/
def cluster_node_heartbeat (clusterHostId : String) (nowT threshold : ℚ)
    (autoDeprovision debugMode workerTasksGiven : Bool) (appVersion : String)
    (versionGt : String → String → Bool)
    (healthCheck : HInstance → HInstance)
    (registerSelf : HInstance)
    (dbErr : String → Option (Option String))
    (instances : List HInstance) : HBResult :=
  let this_inst := instances.find? (fun i => i.hostname = clusterHostId)
  let lost := instances.filter
    (fun i => !(decide (this_inst = some i)) && isLost i.last_seen nowT threshold)
  let remaining := instances.filter
    (fun i => decide (this_inst = some i) || !(isLost i.last_seen nowT threshold))
  match this_inst with
  | some self =>
    let startup_event := isLost self.last_seen nowT threshold
    let self2 := healthCheck self
    if startup_event = true ∧ self2.capacity ≠ 0 then
      ⟨true, false, false, [], [], [], [], false⟩
    else
      heartbeatTail autoDeprovision debugMode workerTasksGiven appVersion
        versionGt dbErr remaining lost
  | none =>
    if autoDeprovision then
      let _ := healthCheck registerSelf
      heartbeatTail autoDeprovision debugMode workerTasksGiven appVersion
        versionGt dbErr remaining lost
    else ⟨false, true, false, [], [], [], [], false⟩

/-- C7 (amended): when the self node is found, its `last_seen` is older
than the liveness threshold at cycle start (the crash-restart/rejoin
case), AND the local health check re-establishes a non-zero capacity, the
heartbeat logs the rejoin and returns early: nothing is reaped,
deprovisioned, or marked offline in that cycle and the local reap pass is
skipped. -/
theorem heartbeat_rejoin_early_return (clusterHostId : String)
    (nowT threshold : ℚ) (autoDeprovision debugMode workerTasksGiven : Bool)
    (appVersion : String) (versionGt : String → String → Bool)
    (healthCheck : HInstance → HInstance) (registerSelf : HInstance)
    (dbErr : String → Option (Option String)) (instances : List HInstance)
    (self : HInstance)
    (hfind : instances.find? (fun i => i.hostname = clusterHostId) = some self)
    (hlost : isLost self.last_seen nowT threshold = true)
    (hcap : (healthCheck self).capacity ≠ 0) :
    cluster_node_heartbeat clusterHostId nowT threshold autoDeprovision
      debugMode workerTasksGiven appVersion versionGt healthCheck registerSelf
      dbErr instances = ⟨true, false, false, [], [], [], [], false⟩ := by
  unfold cluster_node_heartbeat
  rw [hfind]
  simp [hlost, hcap]

def c7wSelf : HInstance := ⟨"node-1", "hybrid", "ready", some 0, 100, ""⟩

def c7wOther : HInstance := ⟨"node-2", "execution", "ready", some 0, 10, ""⟩

def c7wHealth : HInstance → HInstance :=
  fun i => { i with last_seen := some 1000, capacity := 42 }

/-- Witness for C7's amended theorem: a concrete two-node cluster where
self has not been seen for 1000 seconds (threshold 60); the other lost
node is not reaped because the cycle returns at the rejoin branch. -/
theorem heartbeat_rejoin_early_return_witness :
    cluster_node_heartbeat "node-1" 1000 60 false false true "1.0"
      (fun _ _ => false) c7wHealth c7wSelf (fun _ => none)
      [c7wSelf, c7wOther] = ⟨true, false, false, [], [], [], [], false⟩ :=
  heartbeat_rejoin_early_return "node-1" 1000 60 false false true "1.0"
    (fun _ _ => false) c7wHealth c7wSelf (fun _ => none) [c7wSelf, c7wOther]
    c7wSelf (by decide) (by norm_num [isLost, c7wSelf]) (by decide)

def c7cSelf : HInstance := ⟨"node-1", "hybrid", "ready", some 0, 100, ""⟩

def c7cOther : HInstance := ⟨"node-2", "execution", "ready", some 0, 10, ""⟩

/-- The health check that fails to restore capacity (for instance because
the node is over capacity or errored): capacity stays 0 after refresh. -/
def c7cHealth : HInstance → HInstance :=
  fun i => { i with last_seen := some 1000, capacity := 0 }

/-- Counterexample to C7 as stated: self IS lost at cycle start
(last_seen 0, now 1000, threshold 60), yet because the refreshed capacity
is zero the code does NOT return early — it proceeds to reap the other
lost node and mark it offline in the same cycle. -/
theorem heartbeat_no_early_return_when_capacity_zero :
    (cluster_node_heartbeat "node-1" 1000 60 false false true "1.0"
      (fun _ _ => false) c7cHealth c7cSelf (fun _ => none)
      [c7cSelf, c7cOther]).rejoinReturn = false ∧
    (cluster_node_heartbeat "node-1" 1000 60 false false true "1.0"
      (fun _ _ => false) c7cHealth c7cSelf (fun _ => none)
      [c7cSelf, c7cOther]).reaped = ["node-2"] ∧
    isLost c7cSelf.last_seen 1000 60 = true := by
  refine ⟨?_, ?_, ?_⟩ <;>
  · try simp [cluster_node_heartbeat, heartbeatTail, versionSkewRaise,
      processLostOne, isLost, c7cSelf, c7cOther, c7cHealth, List.find?]
    try norm_num
    try simp [cluster_node_heartbeat, heartbeatTail, versionSkewRaise,
      processLostOne, isLost, c7cSelf, c7cOther, c7cHealth, List.find?]
    try norm_num

def c8Lost1 : HInstance := ⟨"lost-a", "execution", "ready", some 0, 10, ""⟩

def c8Lost2 : HInstance := ⟨"lost-b", "execution", "ready", some 0, 10, ""⟩

def c8Self : HInstance := ⟨"node-1", "hybrid", "ready", some 990, 100, ""⟩

/-- The database-error oracle of the C8 run: marking `lost-a` offline
raises a `DatabaseError` whose cause carries SQLSTATE '02000' (NoData,
"no rows affected" — another node already reaped it); `lost-b` saves
fine. -/
def c8DbErr : String → Option (Option String) :=
  fun h => if h = "lost-a" then some (some "02000") else none

/-- C8: the heartbeat never re-raises a reap-time DatabaseError and keeps
processing the remaining lost nodes — but the NoData ("no rows affected")
case is NOT swallowed at debug level as the spec intends: the guard
compares the SQLSTATE string '02000' with the exception class
`psycopg.errors.NoData`, which is always false in Python, so the benign
case lands in `logger.exception` like any other error.  The dead benign
branch and the code's own debug message show the comparison is a slip. -/
theorem reap_db_error_nodata_logged_as_exception :
    handleReapDbError (some "02000") = DbErrorLog.loggedException ∧
    (cluster_node_heartbeat "node-1" 1000 60 false false true "1.0"
      (fun _ _ => false) (fun i => i) c8Self c8DbErr
      [c8Self, c8Lost1, c8Lost2]).dbLogs
      = [("lost-a", DbErrorLog.loggedException)] ∧
    (cluster_node_heartbeat "node-1" 1000 60 false false true "1.0"
      (fun _ _ => false) (fun i => i) c8Self c8DbErr
      [c8Self, c8Lost1, c8Lost2]).markedOffline = ["lost-b"] ∧
    (cluster_node_heartbeat "node-1" 1000 60 false false true "1.0"
      (fun _ _ => false) (fun i => i) c8Self c8DbErr
      [c8Self, c8Lost1, c8Lost2]).reaped = ["lost-a", "lost-b"] := by
  refine ⟨rfl, ?_, ?_, ?_⟩ <;>
  · try simp [cluster_node_heartbeat, heartbeatTail, versionSkewRaise,
      processLostOne, isLost, c8Self, c8Lost1, c8Lost2, c8DbErr,
      handleReapDbError, pyEq, psycopg_errors_NoData, List.find?]
    try norm_num
    try simp [cluster_node_heartbeat, heartbeatTail, versionSkewRaise,
      processLostOne, isLost, c8Self, c8Lost1, c8Lost2, c8DbErr,
      handleReapDbError, pyEq, psycopg_errors_NoData, List.find?]
    try norm_num
